import Mathlib

/-!
Verification of the wiring layer in `src/src/spark_wiring.cpp`.

The wiring layer sits on a HAL; we model each HAL primitive invocation as an
event in a trace (`HalCall`), so "the HAL is not invoked" is `trace = []`.
Board constants (`TOTAL_PINS`, `FIRST_ANALOG_PIN`, the reserved bus pins) and
the board table `PIN_MAP` come from headers that are not part of the sources;
they are parameters of the embedding (`Board`, `Env`), matching the spec's
data model.  Machine integers are modelled as `Nat`/`Int` with explicit
`% 2^w` where wrap-around matters (`system_tick_t`/`long` are 32-bit on the
target; `uint16_t` pins wrap at 65536; the `uint8_t` shift accumulator wraps
at 256).
-/

namespace SparkWiring

/-- Constant `LOW` from the wiring header: logical-low level 0. -/
def LOW : Nat := 0

/-- Constant `HIGH` from the wiring header: logical-high level 1. -/
def HIGH : Nat := 1

/-- Constant `LSBFIRST` (0, as in the wiring headers). -/
def LSBFIRST : Nat := 0

/-- Constant `MSBFIRST` (1, as in the wiring headers). -/
def MSBFIRST : Nat := 1

/-- Enumeration `PinMode` from the wiring header: the closed mode set. -/
inductive PinMode where
  | NONE
  | INPUT
  | INPUT_PULLUP
  | INPUT_PULLDOWN
  | AN_INPUT
  | OUTPUT
  | AF_OUTPUT_PUSHPULL
  | AF_OUTPUT_DRAIN
  deriving DecidableEq, Repr

/-- One entry of the board table `PIN_MAP`: the pin's current mode, its ADC
channel (`none` models `adc_channel == NONE`), and its PWM timer (`none`
models `timer_peripheral == NULL`). -/
structure PinEntry where
  pin_mode : PinMode
  adc_channel : Option Nat
  timer_peripheral : Option Nat
  deriving DecidableEq, Repr

/-- Board-fixed constants from the headers: the table size, the first
short-form analog pin, and the seven reserved bus pins. -/
structure Board where
  TOTAL_PINS : Nat
  FIRST_ANALOG_PIN : Nat
  SCK : Nat
  MOSI : Nat
  MISO : Nat
  SCL : Nat
  SDA : Nat
  RX : Nat
  TX : Nat
  deriving DecidableEq, Repr

/-- Environment a pin operation runs in: the board constants, the three
bus-enabled flags (`SPI.isEnabled()`, `Wire.isEnabled()`,
`Serial1.isEnabled()`), and the board table. -/
structure Env where
  board : Board
  spiEnabled : Bool
  wireEnabled : Bool
  serial1Enabled : Bool
  PIN_MAP : Nat → PinEntry

/-- A HAL primitive invocation, recorded as a trace event. -/
inductive HalCall where
  | HAL_Pin_Mode (pin : Nat) (mode : PinMode)
  | HAL_GPIO_Write (pin : Nat) (value : Nat)
  | HAL_GPIO_Read (pin : Nat)
  | HAL_ADC_Read (pin : Nat)
  | HAL_ADC_Set_Sample_Time (value : Nat)
  | HAL_PWM_Write (pin : Nat) (value : Nat)
  deriving DecidableEq, Repr

/-- Predicate `pinAvailable` (spark_wiring.cpp lines 58-79): the arbitration
check.  Returns `false` exactly when an enabled bus claims the pin; performs
no range validation of its own. -/
def pinAvailable (e : Env) (pin : Nat) : Bool :=
  if e.spiEnabled && (pin == e.board.SCK || pin == e.board.MOSI || pin == e.board.MISO) then
    false
  else if e.wireEnabled && (pin == e.board.SCL || pin == e.board.SDA) then
    false
  else if e.serial1Enabled && (pin == e.board.RX || pin == e.board.TX) then
    false
  else
    true

/-- A pin is claimed by an enabled bus peripheral: SPI enabled and the pin is
SCK/MOSI/MISO, or I2C enabled and the pin is SCL/SDA, or UART1 enabled and
the pin is RX/TX.  This names the conflict condition of the spec's
arbitration sentence; `pinAvailable` is its negation. -/
def pinClaimedByBus (e : Env) (pin : Nat) : Bool :=
  (e.spiEnabled && (pin == e.board.SCK || pin == e.board.MOSI || pin == e.board.MISO)) ||
  (e.wireEnabled && (pin == e.board.SCL || pin == e.board.SDA)) ||
  (e.serial1Enabled && (pin == e.board.RX || pin == e.board.TX))

/-- Operation `pinMode` (lines 38-52): range/`NONE` guard, then arbitration,
then `HAL_Pin_Mode`.  The result is the trace of HAL calls. -/
def pinMode (e : Env) (pin : Nat) (setMode : PinMode) : List HalCall :=
  if e.board.TOTAL_PINS ≤ pin ∨ setMode = PinMode.NONE then
    []
  else if !(pinAvailable e pin) then
    []
  else
    [HalCall.HAL_Pin_Mode pin setMode]

/-- Operation `digitalWrite` (lines 84-101): rejects out-of-range pins and
every input mode plus `NONE`, then arbitration, then `HAL_GPIO_Write`. -/
def digitalWrite (e : Env) (pin : Nat) (value : Nat) : List HalCall :=
  if e.board.TOTAL_PINS ≤ pin ∨ (e.PIN_MAP pin).pin_mode = PinMode.INPUT ∨
     (e.PIN_MAP pin).pin_mode = PinMode.INPUT_PULLUP ∨
     (e.PIN_MAP pin).pin_mode = PinMode.INPUT_PULLDOWN ∨
     (e.PIN_MAP pin).pin_mode = PinMode.AN_INPUT ∨
     (e.PIN_MAP pin).pin_mode = PinMode.NONE then
    []
  else if !(pinAvailable e pin) then
    []
  else
    [HalCall.HAL_GPIO_Write pin value]

/-- Operation `digitalRead` (lines 106-123): rejects out-of-range pins,
`NONE` and the two alternate-output modes, then arbitration, then returns
the HAL read.  `halRead` is the oracle for `HAL_GPIO_Read`'s `int32_t`
result.  The result pairs the returned value with the trace of HAL calls. -/
def digitalRead (e : Env) (halRead : Nat → Int) (pin : Nat) : Int × List HalCall :=
  if e.board.TOTAL_PINS ≤ pin ∨ (e.PIN_MAP pin).pin_mode = PinMode.NONE ∨
     (e.PIN_MAP pin).pin_mode = PinMode.AF_OUTPUT_PUSHPULL ∨
     (e.PIN_MAP pin).pin_mode = PinMode.AF_OUTPUT_DRAIN then
    ((LOW : Nat), [])
  else if !(pinAvailable e pin) then
    ((LOW : Nat), [])
  else
    (halRead pin, [HalCall.HAL_GPIO_Read pin])

/-- Operation `setADCSampleTime` (lines 139-142): unconditional forward to
the HAL. -/
def setADCSampleTime (value : Nat) : List HalCall :=
  [HalCall.HAL_ADC_Set_Sample_Time value]

/-- The short-form analog remapping at the top of `analogRead` (lines
151-155): `if (pin < FIRST_ANALOG_PIN) pin = pin + FIRST_ANALOG_PIN;` on a
`uint16_t` pin (hence the wrap at 65536). -/
def analogRemap (e : Env) (pin : Nat) : Nat :=
  if pin < e.board.FIRST_ANALOG_PIN then (pin + e.board.FIRST_ANALOG_PIN) % 65536 else pin

/-- Operation `analogRead` (lines 149-169): short-form remapping first, then
arbitration on the remapped pin, then the range/ADC-channel guard, then
`HAL_ADC_Read`.  `halAdcRead` is the oracle for the ADC sample. -/
def analogRead (e : Env) (halAdcRead : Nat → Int) (pin : Nat) : Int × List HalCall :=
  let p := analogRemap e pin
  if !(pinAvailable e p) then
    ((LOW : Nat), [])
  else if e.board.TOTAL_PINS ≤ p ∨ (e.PIN_MAP p).adc_channel = none then
    ((LOW : Nat), [])
  else
    (halAdcRead p, [HalCall.HAL_ADC_Read p])

/-- Operation `analogWrite` (lines 175-194): range/timer guard, then
arbitration, then the output-mode guard, then `HAL_PWM_Write`. -/
def analogWrite (e : Env) (pin : Nat) (value : Nat) : List HalCall :=
  if e.board.TOTAL_PINS ≤ pin ∨ (e.PIN_MAP pin).timer_peripheral = none then
    []
  else if !(pinAvailable e pin) then
    []
  else if (e.PIN_MAP pin).pin_mode ≠ PinMode.OUTPUT ∧
          (e.PIN_MAP pin).pin_mode ≠ PinMode.AF_OUTPUT_PUSHPULL then
    []
  else
    [HalCall.HAL_PWM_Write pin value]

/-- Function `map` (lines 277-280).  The source's `long` arithmetic is
modelled as unbounded `Int` (signed overflow is undefined behaviour in C);
C's `/` on signed operands truncates toward zero, i.e. `Int.tdiv`. -/
def map (value fromStart fromEnd toStart toEnd : Int) : Int :=
  Int.tdiv ((value - fromStart) * (toEnd - toStart)) (fromEnd - fromStart) + toStart

/-- Function `shiftOut` (lines 297-310): eight iterations; each drives the
selected bit of `val` on `dataPin` (`!!(val & (1 << i))`), then pulses
`clockPin` high then low.  The result is the trace of HAL calls. -/
def shiftOut (e : Env) (dataPin clockPin bitOrder val : Nat) : List HalCall :=
  (List.range 8).foldl
    (fun tr i =>
      tr ++
        digitalWrite e dataPin
          (if bitOrder == LSBFIRST then
            (if val &&& (1 <<< i) != 0 then 1 else 0)
          else
            (if val &&& (1 <<< (7 - i)) != 0 then 1 else 0)) ++
        digitalWrite e clockPin HIGH ++
        digitalWrite e clockPin LOW)
    []

/-- Function `shiftIn` (lines 282-295): eight iterations; each drives
`clockPin` high, samples `dataPin` with `digitalRead`, ORs the sample
(shifted to bit `i` or `7 - i`) into the `uint8_t` accumulator (hence
`% 256`), then drives `clockPin` low.  `halRead i` is the GPIO level oracle
at iteration `i` (the HAL read may change between iterations).  Negative
oracle values would make the source's left shift undefined behaviour; they
are modelled via `Int.toNat`. -/
def shiftIn (e : Env) (halRead : Nat → Nat → Int) (dataPin clockPin bitOrder : Nat) :
    Nat × List HalCall :=
  (List.range 8).foldl
    (fun acc i =>
      let trClockHigh := digitalWrite e clockPin HIGH
      let r := digitalRead e (halRead i) dataPin
      let v :=
        if bitOrder == LSBFIRST then (acc.1 ||| (r.1.toNat <<< i)) % 256
        else (acc.1 ||| (r.1.toNat <<< (7 - i))) % 256
      (v, acc.2 ++ trClockHigh ++ r.2 ++ digitalWrite e clockPin LOW))
    (0, [])

/-- The sequence of values a trace drives on `pin` via `HAL_GPIO_Write`. -/
def dataWrites (tr : List HalCall) (pin : Nat) : List Nat :=
  tr.filterMap fun c =>
    match c with
    | HalCall.HAL_GPIO_Write p v => if p = pin then some v else none
    | _ => none

/-- The level `shiftOut` drives on the data pin at iteration `i`:
`!!(val & (1 << i))` for `LSBFIRST`, `!!(val & (1 << (7 - i)))`
otherwise. -/
def shiftOutLevel (bitOrder b i : Nat) : Nat :=
  if bitOrder == LSBFIRST then (if b &&& (1 <<< i) != 0 then 1 else 0)
  else (if b &&& (1 <<< (7 - i)) != 0 then 1 else 0)

/-- Pure arithmetic core of the shift round trip: the `shiftIn` fold applied
to the bit values `shiftOut` emits for byte `b` under `bitOrder`. -/
def shiftRoundTripValue (bitOrder b : Nat) : Nat :=
  (List.range 8).foldl
    (fun v i =>
      if bitOrder == LSBFIRST then (v ||| (shiftOutLevel bitOrder b i <<< i)) % 256
      else (v ||| (shiftOutLevel bitOrder b i <<< (7 - i))) % 256)
    0

/-!
Time base and the cooperative delay loop.  The type `system_tick_t` is
`uint32_t` and `long`/`unsigned long` are 32-bit on the target, so all tick
arithmetic lives modulo `2^32`, and the signed values the source stores in
`long elapsed_millis` are modelled as `Int` in `[-2^31, 2^31)` obtained by
two's-complement reinterpretation.
-/

/-- Wrap modulus `2^32` of `system_tick_t` / `unsigned long`. -/
def UINT32_MOD : Nat := 4294967296

/-- Threshold `2^31`: the first negative two's-complement bit pattern. -/
def INT32_HALF : Nat := 2147483648

/-- Reinterpret a 32-bit unsigned value (any `Nat`, reduced mod `2^32`) as a
signed 32-bit `long`. -/
def toSigned32 (n : Nat) : Int :=
  if n % UINT32_MOD < INT32_HALF then ((n % UINT32_MOD : Nat) : Int)
  else ((n % UINT32_MOD : Nat) : Int) - (UINT32_MOD : Nat)

/-- Reinterpret a signed 32-bit `long` value as `unsigned long`, as C's
usual arithmetic conversions do when a `long` is compared with an
`unsigned long`. -/
def uint32OfInt (x : Int) : Nat := (x % ((UINT32_MOD : Nat) : Int)).toNat

/-- Unsigned 32-bit subtraction `a - b` (operands reduced mod `2^32`). -/
def sub32 (a b : Nat) : Nat :=
  (a % UINT32_MOD + (UINT32_MOD - b % UINT32_MOD)) % UINT32_MOD

/-- Operation `millis` (lines 206-209): forwards `GetSystem1MsTick`.  The
tick source is a stream indexed by call number; the value has
`system_tick_t` width. -/
def millis (msTick : Nat → Nat) (i : Nat) : Nat := msTick i % UINT32_MOD

/-- Value of `volatile long elapsed_millis = current_millis - last_millis;`
(line 236): `uint32_t` subtraction stored into a 32-bit `long`. -/
def elapsedRaw (last current : Nat) : Int := toSigned32 (sub32 current last)

/-- Value of `elapsed_millis` after the wrap correction of lines 239-242: if
the naive signed subtraction is negative, `elapsed_millis = last_millis +
current_millis` (a `uint32_t` sum stored into `long`). -/
def elapsedMillisFinal (last current : Nat) : Int :=
  if elapsedRaw last current < 0 then toSigned32 (last + current)
  else elapsedRaw last current

/-- The loop's exit test `elapsed_millis >= ms` (line 244): `long` against
`unsigned long`, so the `long` side is converted to `unsigned long`. -/
def delayExitCheck (last current ms : Nat) : Bool :=
  decide (ms ≤ uint32OfInt (elapsedMillisFinal last current))

/-- The elapsed-time value exactly as the spec words it: `current - start`
on native-width ticks, and if that signed subtraction is negative,
`start + current` instead (both read back as native-width, i.e.
non-negative, tick counts). -/
def specElapsed (start current : Nat) : Nat :=
  if elapsedRaw start current < 0 then (start + current) % UINT32_MOD
  else (elapsedRaw start current).toNat

/-- External state and flags `delay` interacts with: the tick stream
(`GetSystem1MsTick`, indexed by call number: index 0 is the entry read),
`SPARK_WLAN_SETUP`, `SPARK_WLAN_SLEEP`, `SPARK_FLASH_UPDATE` (re-read after
each `SPARK_WLAN_Loop` call, indexed by the running service-call count), and
the constant `SPARK_LOOP_DELAY_MILLIS`. -/
structure DelayEnv where
  msTick : Nat → Nat
  wlanSetup : Bool
  wlanSleep : Bool
  flashUpdate : Nat → Bool
  loopDelayMillis : Nat

/-- Observable outcome of a terminating `delay` call: how often `KICK_WDT`
ran, how often `SPARK_WLAN_Loop` ran, and the index of the
`GetSystem1MsTick` call whose value passed the exit check. -/
structure DelayResult where
  kicks : Nat
  services : Nat
  exitIndex : Nat
  deriving DecidableEq, Repr

/-- The `do { SPARK_WLAN_Loop(); } while (SPARK_FLASH_UPDATE);` inner loop
(lines 258-263).  `SPARK_WLAN_Loop` resets `spark_loop_total_millis` to 0
(line 257's comment); we track only the running service count and give the
loop fuel since `SPARK_FLASH_UPDATE` may never clear. -/
def wlanInnerLoop (flashUpdate : Nat → Bool) (fuel services : Nat) : Option Nat :=
  match fuel with
  | 0 => none
  | fuel + 1 =>
    let services := services + 1
    if flashUpdate services then wlanInnerLoop flashUpdate fuel services else some services

/-- The `while (1)` body of `delay` (lines 231-266), with fuel for
termination (the C loop need not terminate for an adversarial tick source).
`last` is `last_millis` recorded at entry (never updated by the loop), `i`
the index of the next `GetSystem1MsTick` call, `loopElapsed` the local
`spark_loop_elapsed_millis`, `totalMs` the shared
`spark_loop_total_millis`. -/
def delayLoop (env : DelayEnv) (ms last i kicks services loopElapsed totalMs innerFuel fuel : Nat) :
    Option DelayResult :=
  match fuel with
  | 0 => none
  | fuel + 1 =>
    let kicks := kicks + 1
    let current := millis env.msTick i
    if delayExitCheck last current ms then
      some ⟨kicks, services, i⟩
    else if !env.wlanSetup || env.wlanSleep then
      delayLoop env ms last (i + 1) kicks services loopElapsed totalMs innerFuel fuel
    else if loopElapsed ≤ uint32OfInt (elapsedMillisFinal last current) ∨
            env.loopDelayMillis ≤ totalMs then
      let loopElapsed :=
        uint32OfInt (elapsedMillisFinal last current + ((env.loopDelayMillis : Nat) : Int))
      match wlanInnerLoop env.flashUpdate innerFuel services with
      | none => none
      | some services => delayLoop env ms last (i + 1) kicks services loopElapsed 0 innerFuel fuel
    else
      delayLoop env ms last (i + 1) kicks services loopElapsed totalMs innerFuel fuel

/-- Operation `delay` (lines 222-267), with the network subsystem compiled
in (`SPARK_WLAN_ENABLE`).  On entry `spark_loop_elapsed_millis` is set to
`SPARK_LOOP_DELAY_MILLIS`, the shared accumulator gains `ms` (`uint32`
wrap), `last_millis` records the entry tick, and the loop runs.  `ms` is
`unsigned long`, hence reduced mod `2^32`. -/
def delay (env : DelayEnv) (ms totalMs0 innerFuel fuel : Nat) : Option DelayResult :=
  delayLoop env (ms % UINT32_MOD) (millis env.msTick 0) 1 0 0 env.loopDelayMillis
    ((totalMs0 + ms) % UINT32_MOD) innerFuel fuel

/-!
Concrete boards and environments for witnesses and counterexamples.
-/

/-- Spark Core-style board constants: 21 pins, analog pins from index 10,
SCK/MOSI/MISO = 13/15/14, SCL/SDA = 1/0, RX/TX = 3/2. -/
def coreBoard : Board := ⟨21, 10, 13, 15, 14, 1, 0, 3, 2⟩

/-- Environment with I2C (`Wire`) enabled; every table entry is an
ADC-capable analog-input pin. -/
def envWireOn : Env := ⟨coreBoard, false, true, false, fun _ => ⟨PinMode.AN_INPUT, some 0, none⟩⟩

/-- Environment with SPI enabled; every table entry is an ADC-capable
analog-input pin. -/
def envSpiOn : Env := ⟨coreBoard, true, false, false, fun _ => ⟨PinMode.AN_INPUT, some 0, none⟩⟩

/-- Environment with all buses off; every table entry is in `OUTPUT` mode
with an ADC channel and a PWM timer. -/
def envOutputAll : Env := ⟨coreBoard, false, false, false, fun _ => ⟨PinMode.OUTPUT, some 0, some 0⟩⟩

/-- Environment with all buses off; every table entry is in `INPUT` mode. -/
def envInputAll : Env := ⟨coreBoard, false, false, false, fun _ => ⟨PinMode.INPUT, some 0, none⟩⟩

/-- Environment with all buses off; pin 6 is an `INPUT` data pin, every
other pin is an `OUTPUT` (so pin 7 can serve as a clock). -/
def envShiftIn : Env :=
  ⟨coreBoard, false, false, false,
    fun p => if p = 6 then ⟨PinMode.INPUT, none, none⟩ else ⟨PinMode.OUTPUT, none, none⟩⟩

/-- Loopback oracle for the shift-round-trip witness: iteration `i` of
`shiftIn` reads the `i`-th level `shiftOut` drove on its data pin 4. -/
def shiftLoopbackRead : Nat → Nat → Int :=
  fun i _ => (((dataWrites (shiftOut envOutputAll 4 5 LSBFIRST 165) 4).getD i 0 : Nat) : Int)

/-- Board table that is all-`OUTPUT` everywhere. -/
def pmUniform : Nat → PinEntry := fun _ => ⟨PinMode.OUTPUT, some 0, some 0⟩

/-- Board table that matches `pmUniform` on the 21 valid pins and differs
beyond them. -/
def pmOutOfRangeDiff : Nat → PinEntry :=
  fun p => if p < 21 then ⟨PinMode.OUTPUT, some 0, some 0⟩ else ⟨PinMode.NONE, none, none⟩

/-- Tick stream that advances by one per `GetSystem1MsTick` call. -/
def tickId : Nat → Nat := fun i => i

/-- Delay environment with the network flag off. -/
def delayEnvPlain : DelayEnv := ⟨tickId, false, false, fun _ => false, 1000⟩

/-- Delay environment with the network set up and awake. -/
def delayEnvWlanOn : DelayEnv := ⟨tickId, true, false, fun _ => false, 1000⟩

/-!
Helper lemmas shared by the claim theorems.
-/

/-- Availability is the negation of the bus-claim condition. -/
lemma pinAvailable_eq_not_claimed (e : Env) (pin : Nat) :
    pinAvailable e pin = !(pinClaimedByBus e pin) := by
  cases h1 : e.spiEnabled && (pin == e.board.SCK || pin == e.board.MOSI || pin == e.board.MISO) <;>
  cases h2 : e.wireEnabled && (pin == e.board.SCL || pin == e.board.SDA) <;>
  cases h3 : e.serial1Enabled && (pin == e.board.RX || pin == e.board.TX) <;>
  simp [pinAvailable, pinClaimedByBus, h1, h2, h3]

/-- Round trip unsigned-to-signed-to-unsigned is reduction mod `2^32`. -/
lemma uint32OfInt_toSigned32 (n : Nat) : uint32OfInt (toSigned32 n) = n % UINT32_MOD := by
  unfold uint32OfInt toSigned32 UINT32_MOD INT32_HALF
  split <;> omega

/-- A non-negative signed reinterpretation recovers the reduced value. -/
lemma toSigned32_toNat (n : Nat) (h : 0 ≤ toSigned32 n) :
    (toSigned32 n).toNat = n % UINT32_MOD := by
  unfold toSigned32 UINT32_MOD INT32_HALF at *
  split at h <;> omega

/-- The unsigned reinterpretation of the wrap-corrected `elapsed_millis` is
exactly the spec's elapsed value. -/
lemma uint32OfInt_elapsedMillisFinal (last current : Nat) :
    uint32OfInt (elapsedMillisFinal last current) = specElapsed last current := by
  unfold elapsedMillisFinal specElapsed
  split
  · exact uint32OfInt_toSigned32 _
  · rename_i h
    push_neg at h
    unfold elapsedRaw at *
    rw [uint32OfInt_toSigned32, toSigned32_toNat _ h]

/-- The loop's exit test holds iff the spec's elapsed value has reached
`ms`. -/
lemma delayExitCheck_iff (last current ms : Nat) :
    delayExitCheck last current ms = true ↔ ms ≤ specElapsed last current := by
  unfold delayExitCheck
  rw [uint32OfInt_elapsedMillisFinal]
  exact decide_eq_true_iff

/-- A terminating run of the delay loop exits at the first tick index whose
spec-elapsed value reaches `ms`, and at no earlier index. -/
lemma delayLoop_exit_spec (env : DelayEnv) (ms last : Nat) :
    ∀ fuel i kicks services loopElapsed totalMs innerFuel r,
      delayLoop env ms last i kicks services loopElapsed totalMs innerFuel fuel = some r →
      i ≤ r.exitIndex ∧ ms ≤ specElapsed last (millis env.msTick r.exitIndex) ∧
      ∀ j, i ≤ j → j < r.exitIndex → specElapsed last (millis env.msTick j) < ms := by
  intro fuel
  induction fuel with
  | zero =>
    intro i kicks services loopElapsed totalMs innerFuel r h
    simp [delayLoop] at h
  | succ fuel ih =>
    intro i kicks services loopElapsed totalMs innerFuel r h
    rw [delayLoop] at h
    by_cases hchk : delayExitCheck last (millis env.msTick i) ms = true
    · rw [if_pos hchk] at h
      obtain rfl : (⟨kicks + 1, services, i⟩ : DelayResult) = r := Option.some.inj h
      refine ⟨Nat.le_refl i, (delayExitCheck_iff _ _ _).mp hchk, ?_⟩
      intro j h1 h2
      have h2' : j < i := h2
      omega
    · rw [if_neg hchk] at h
      have hnot : specElapsed last (millis env.msTick i) < ms := by
        have := (delayExitCheck_iff last (millis env.msTick i) ms).not.mp hchk
        omega
      have step : ∀ k s le t, delayLoop env ms last (i + 1) k s le t innerFuel fuel = some r →
          i ≤ r.exitIndex ∧ ms ≤ specElapsed last (millis env.msTick r.exitIndex) ∧
          ∀ j, i ≤ j → j < r.exitIndex → specElapsed last (millis env.msTick j) < ms := by
        intro k s le t hr
        obtain ⟨ha, hb, hc⟩ := ih (i + 1) k s le t innerFuel r hr
        refine ⟨by omega, hb, ?_⟩
        intro j hj1 hj2
        rcases Nat.eq_or_lt_of_le hj1 with rfl | hj
        · exact hnot
        · exact hc j hj hj2
      split at h
      · exact step _ _ _ _ h
      · split at h
        · rcases hw : wlanInnerLoop env.flashUpdate innerFuel services with _ | s2
          · rw [hw] at h; exact absurd h (by simp)
          · rw [hw] at h
            exact step _ _ _ _ h
        · exact step _ _ _ _ h

/-- A `digitalWrite` on an in-range, available `OUTPUT` pin reaches the
HAL. -/
lemma digitalWrite_success (e : Env) (pin : Nat) (h1 : pin < e.board.TOTAL_PINS)
    (h2 : (e.PIN_MAP pin).pin_mode = PinMode.OUTPUT) (h3 : pinAvailable e pin = true)
    (v : Nat) : digitalWrite e pin v = [HalCall.HAL_GPIO_Write pin v] := by
  simp [digitalWrite, h2, h3, Nat.not_le.mpr h1]

/-- A `digitalRead` on an in-range, available `INPUT` pin returns the HAL
read. -/
lemma digitalRead_success (e : Env) (pin : Nat) (h1 : pin < e.board.TOTAL_PINS)
    (h2 : (e.PIN_MAP pin).pin_mode = PinMode.INPUT) (h3 : pinAvailable e pin = true)
    (f : Nat → Int) : digitalRead e f pin = (f pin, [HalCall.HAL_GPIO_Read pin]) := by
  simp [digitalRead, h2, h3, Nat.not_le.mpr h1]

/-- With both pins in-range, available `OUTPUT` pins and distinct, the data
pin of `shiftOut` sees exactly the eight selected bit levels of `b`. -/
lemma shiftOut_dataWrites (e : Env) (dataPin clockPin : Nat) (hdc : clockPin ≠ dataPin)
    (hd1 : dataPin < e.board.TOTAL_PINS) (hd2 : (e.PIN_MAP dataPin).pin_mode = PinMode.OUTPUT)
    (hd3 : pinAvailable e dataPin = true)
    (hc1 : clockPin < e.board.TOTAL_PINS) (hc2 : (e.PIN_MAP clockPin).pin_mode = PinMode.OUTPUT)
    (hc3 : pinAvailable e clockPin = true) (bitOrder b : Nat) :
    dataWrites (shiftOut e dataPin clockPin bitOrder b) dataPin =
      [shiftOutLevel bitOrder b 0, shiftOutLevel bitOrder b 1, shiftOutLevel bitOrder b 2,
       shiftOutLevel bitOrder b 3, shiftOutLevel bitOrder b 4, shiftOutLevel bitOrder b 5,
       shiftOutLevel bitOrder b 6, shiftOutLevel bitOrder b 7] := by
  have hr : List.range 8 = [0, 1, 2, 3, 4, 5, 6, 7] := rfl
  simp [shiftOut, hr, digitalWrite_success e dataPin hd1 hd2 hd3,
        digitalWrite_success e clockPin hc1 hc2 hc3, dataWrites, hdc, shiftOutLevel]
  constructor <;> split_ifs <;> omega

/-- With an in-range, available `INPUT` data pin, the value `shiftIn`
returns is the fold of the eight oracle samples. -/
lemma shiftIn_value (e : Env) (halRead : Nat → Nat → Int) (dataPin clockPin : Nat)
    (hd1 : dataPin < e.board.TOTAL_PINS) (hd2 : (e.PIN_MAP dataPin).pin_mode = PinMode.INPUT)
    (hd3 : pinAvailable e dataPin = true) (bitOrder : Nat) :
    (shiftIn e halRead dataPin clockPin bitOrder).1 =
      (List.range 8).foldl
        (fun v i =>
          if bitOrder == LSBFIRST then (v ||| ((halRead i dataPin).toNat <<< i)) % 256
          else (v ||| ((halRead i dataPin).toNat <<< (7 - i))) % 256)
        0 := by
  have hr : List.range 8 = [0, 1, 2, 3, 4, 5, 6, 7] := rfl
  simp [shiftIn, hr, digitalRead_success e dataPin hd1 hd2 hd3]

set_option maxRecDepth 10000 in
/-- Reassembling the eight emitted bit levels recovers the byte, for either
bit order. -/
lemma shiftRoundTripValue_id :
    ∀ b : Fin 256,
      shiftRoundTripValue LSBFIRST b.val = b.val ∧ shiftRoundTripValue MSBFIRST b.val = b.val := by
  decide

/-!
Claim theorems.
-/

/-- C1 (amended): for every pin operation, if an enabled bus peripheral
claims the pin the operation actually arbitrates — for `pinMode`,
`digitalWrite`, `digitalRead` and `analogWrite` the argument pin, for
`analogRead` the pin index after the short-form remapping — the HAL is not
invoked: writes are no-ops (empty trace) and reads return the logical-low
value 0.  (The claim as frozen, which reads the condition on `analogRead`'s
raw argument pin, is refuted by
`C1_analogRead_claimed_pin_counterexample`.) -/
theorem C1_bus_claimed_pin_blocks_hal (e : Env) (pin : Nat)
    (h : pinClaimedByBus e pin = true) (m : PinMode) (v w : Nat) (f g : Nat → Int) :
    pinMode e pin m = [] ∧ digitalWrite e pin v = [] ∧ digitalRead e f pin = (0, []) ∧
    analogWrite e pin w = [] ∧
    ∀ q, pinClaimedByBus e (analogRemap e q) = true → analogRead e g q = (0, []) := by
  have hav : pinAvailable e pin = false := by rw [pinAvailable_eq_not_claimed, h]; rfl
  refine ⟨?_, ?_, ?_, ?_, ?_⟩
  · unfold pinMode
    split
    · rfl
    · simp [hav]
  · unfold digitalWrite
    split
    · rfl
    · simp [hav]
  · unfold digitalRead
    split
    · rfl
    · simp [hav, LOW]
  · unfold analogWrite
    split
    · rfl
    · simp [hav]
  · intro q hq
    have hav' : pinAvailable e (analogRemap e q) = false := by
      rw [pinAvailable_eq_not_claimed, hq]; rfl
    simp [analogRead, hav', LOW]

/-- C1 witness: on a Core-style board with I2C enabled, every claimed-pin
operation on SCL (pin 1) is a no-op returning 0, and with SPI enabled the
short-form `analogRead(3)` (remapped to SCK = 13) is rejected. -/
theorem C1_bus_claimed_pin_blocks_hal_witness :
    pinMode envWireOn 1 PinMode.OUTPUT = [] ∧ digitalWrite envWireOn 1 1 = [] ∧
    digitalRead envWireOn (fun _ => 7) 1 = (0, []) ∧ analogWrite envWireOn 1 1 = [] ∧
    analogRead envSpiOn (fun _ => 7) 3 = (0, []) :=
  have h1 := C1_bus_claimed_pin_blocks_hal envWireOn 1 (by decide) PinMode.OUTPUT 1 1
    (fun _ => 7) (fun _ => 7)
  have h2 := C1_bus_claimed_pin_blocks_hal envSpiOn 13 (by decide) PinMode.OUTPUT 1 1
    (fun _ => 7) (fun _ => 7)
  ⟨h1.1, h1.2.1, h1.2.2.1, h1.2.2.2.1, h2.2.2.2.2 3 (by decide)⟩

/-- C1 counterexample: with I2C enabled on a Core-style board (SDA = 0,
FIRST_ANALOG_PIN = 10), `analogRead` on the claimed pin SDA remaps the pin
to 10 before arbitrating, so the HAL IS invoked (on pin 10) and the call
returns the ADC sample 42, not 0 — refuting the frozen claim for
`ReadAnalog`. -/
theorem C1_analogRead_claimed_pin_counterexample :
    envWireOn.wireEnabled = true ∧ envWireOn.board.SDA = 0 ∧
    pinClaimedByBus envWireOn 0 = true ∧
    analogRead envWireOn (fun _ => 42) 0 = (42, [HalCall.HAL_ADC_Read 10]) :=
  ⟨rfl, rfl, rfl, rfl⟩

/-- C2: for every `ms`, every behaviour of the tick source, and every
terminating run of `delay`, the loop exits only at a tick index whose
computed elapsed time (the source's wrap-corrected formula, `specElapsed`)
has reached `ms`, and at every earlier checked index the computed elapsed
time was still below `ms` — the delay lower bound as observed through
`millis`. -/
theorem C2_delay_lower_bound (env : DelayEnv) (ms totalMs0 innerFuel fuel : Nat)
    (r : DelayResult) (h : delay env ms totalMs0 innerFuel fuel = some r) :
    ms % UINT32_MOD ≤ specElapsed (millis env.msTick 0) (millis env.msTick r.exitIndex) ∧
    ∀ j, 1 ≤ j → j < r.exitIndex →
      specElapsed (millis env.msTick 0) (millis env.msTick j) < ms % UINT32_MOD := by
  obtain ⟨-, hb, hc⟩ :=
    delayLoop_exit_spec env (ms % UINT32_MOD) (millis env.msTick 0) fuel 1 0 0
      env.loopDelayMillis ((totalMs0 + ms) % UINT32_MOD) innerFuel r h
  exact ⟨hb, hc⟩

/-- C2 witness: with a tick source advancing by one per poll, `delay 3`
returns after the tick read at index 3, whose elapsed value reaches 3, the
earlier polls staying below 3. -/
theorem C2_delay_lower_bound_witness :
    3 % UINT32_MOD ≤ specElapsed (millis tickId 0) (millis tickId 3) ∧
    ∀ j, 1 ≤ j → j < 3 →
      specElapsed (millis tickId 0) (millis tickId j) < 3 % UINT32_MOD := by
  have h : delay delayEnvPlain 3 0 5 10 = some ⟨3, 0, 3⟩ := by decide
  exact C2_delay_lower_bound delayEnvPlain 3 0 5 10 ⟨3, 0, 3⟩ h

/-- C3: inside `delay`, `elapsed_millis` is `current - start` (both
native-width ticks, signed subtraction), replaced by `start + current` when
negative, and the loop's exit test `elapsed_millis >= ms` fires exactly when
that elapsed value — read back at native width, which is how the C
comparison against the `unsigned long` `ms` evaluates it — has reached
`ms`. -/
theorem C3_delay_wrap_elapsed_formula (last current ms : Nat) :
    (delayExitCheck last current ms = true ↔ ms ≤ specElapsed last current) ∧
    specElapsed last current =
      (if elapsedRaw last current < 0 then (last + current) % UINT32_MOD
       else (elapsedRaw last current).toNat) :=
  ⟨delayExitCheck_iff last current ms, rfl⟩

/-- C4: for every pin with `pin ≥ TOTAL_PINS` and every public pin
operation, the HAL is not invoked (empty trace) and the return value, if
any, is the logical-low 0; for `analogRead` the range condition applies to
the pin index after the short-form remapping. -/
theorem C4_range_guard (e : Env) (pin : Nat) (h : e.board.TOTAL_PINS ≤ pin) (m : PinMode)
    (v w : Nat) (f g : Nat → Int) :
    pinMode e pin m = [] ∧ digitalWrite e pin v = [] ∧ digitalRead e f pin = (0, []) ∧
    analogWrite e pin w = [] ∧
    ∀ q, e.board.TOTAL_PINS ≤ analogRemap e q → analogRead e g q = (0, []) := by
  refine ⟨?_, ?_, ?_, ?_, ?_⟩
  · simp [pinMode, h]
  · simp [digitalWrite, h]
  · simp [digitalRead, h, LOW]
  · simp [analogWrite, h]
  · intro q hq
    by_cases hav : pinAvailable e (analogRemap e q) = true
    · simp [analogRead, hav, hq, LOW]
    · simp only [Bool.not_eq_true] at hav
      simp [analogRead, hav, LOW]

/-- C4 witness: on the 21-pin Core-style board, every operation on pin 30 is
rejected with an empty trace and zero reads. -/
theorem C4_range_guard_witness :
    pinMode envOutputAll 30 PinMode.OUTPUT = [] ∧ digitalWrite envOutputAll 30 1 = [] ∧
    digitalRead envOutputAll (fun _ => 7) 30 = (0, []) ∧ analogWrite envOutputAll 30 1 = [] ∧
    analogRead envOutputAll (fun _ => 7) 30 = (0, []) :=
  have h := C4_range_guard envOutputAll 30 (by decide) PinMode.OUTPUT 1 1
    (fun _ => 7) (fun _ => 7)
  ⟨h.1, h.2.1, h.2.2.1, h.2.2.2.1, h.2.2.2.2 30 (by decide)⟩

/-- C5: `digitalWrite` invokes the HAL only when the pin is in range, its
mode is `OUTPUT`, `AF_OUTPUT_PUSHPULL` or `AF_OUTPUT_DRAIN`, and the pin is
available; on every input mode (`INPUT`, `INPUT_PULLUP`, `INPUT_PULLDOWN`,
`AN_INPUT`) and on `NONE` the call is a no-op with no HAL invocation. -/
theorem C5_write_mode_guard (e : Env) (pin v : Nat) :
    (digitalWrite e pin v ≠ [] →
      pin < e.board.TOTAL_PINS ∧
      ((e.PIN_MAP pin).pin_mode = PinMode.OUTPUT ∨
       (e.PIN_MAP pin).pin_mode = PinMode.AF_OUTPUT_PUSHPULL ∨
       (e.PIN_MAP pin).pin_mode = PinMode.AF_OUTPUT_DRAIN) ∧
      pinAvailable e pin = true) ∧
    (((e.PIN_MAP pin).pin_mode = PinMode.INPUT ∨
      (e.PIN_MAP pin).pin_mode = PinMode.INPUT_PULLUP ∨
      (e.PIN_MAP pin).pin_mode = PinMode.INPUT_PULLDOWN ∨
      (e.PIN_MAP pin).pin_mode = PinMode.AN_INPUT ∨
      (e.PIN_MAP pin).pin_mode = PinMode.NONE) →
      digitalWrite e pin v = []) := by
  constructor
  · intro hne
    unfold digitalWrite at hne
    split at hne
    · exact absurd rfl hne
    · rename_i hcond
      push_neg at hcond
      obtain ⟨hr, h1, h2, h3, h4, h5⟩ := hcond
      split at hne
      · exact absurd rfl hne
      · rename_i hav
        simp only [Bool.not_eq_true', Bool.not_eq_false] at hav
        refine ⟨hr, ?_, hav⟩
        cases hm : (e.PIN_MAP pin).pin_mode <;> simp_all
  · intro hm
    unfold digitalWrite
    split
    · rfl
    · rename_i hcond
      push_neg at hcond
      obtain ⟨_, h1, h2, h3, h4, h5⟩ := hcond
      rcases hm with h | h | h | h | h <;> simp_all

/-- C5 witness: a write to an available `OUTPUT` pin reaches the HAL (so the
guard's conclusion holds there), and a write to an `INPUT` pin is a
no-op. -/
theorem C5_write_mode_guard_witness :
    ((0 : Nat) < envOutputAll.board.TOTAL_PINS ∧
      ((envOutputAll.PIN_MAP 0).pin_mode = PinMode.OUTPUT ∨
       (envOutputAll.PIN_MAP 0).pin_mode = PinMode.AF_OUTPUT_PUSHPULL ∨
       (envOutputAll.PIN_MAP 0).pin_mode = PinMode.AF_OUTPUT_DRAIN) ∧
      pinAvailable envOutputAll 0 = true) ∧
    digitalWrite envInputAll 0 1 = [] :=
  ⟨(C5_write_mode_guard envOutputAll 0 1).1 (by decide),
   (C5_write_mode_guard envInputAll 0 1).2 (by decide)⟩

/-- C6: for every byte `b` and either bit order, with all four pins
configured and available and the data line an ideal loopback — at each
clock step `i`, `shiftIn` reads the level `shiftOut` last drove on its data
pin, namely the `i`-th entry of `shiftOut`'s data-pin write trace —
`shiftIn` returns `b`. -/
theorem C6_shift_round_trip (eo ei : Env) (dOut cOut dIn cIn bitOrder b : Nat)
    (hb : b < 256) (horder : bitOrder = LSBFIRST ∨ bitOrder = MSBFIRST)
    (hdc : cOut ≠ dOut)
    (ho1 : dOut < eo.board.TOTAL_PINS) (ho2 : (eo.PIN_MAP dOut).pin_mode = PinMode.OUTPUT)
    (ho3 : pinAvailable eo dOut = true)
    (ho4 : cOut < eo.board.TOTAL_PINS) (ho5 : (eo.PIN_MAP cOut).pin_mode = PinMode.OUTPUT)
    (ho6 : pinAvailable eo cOut = true)
    (hi1 : dIn < ei.board.TOTAL_PINS) (hi2 : (ei.PIN_MAP dIn).pin_mode = PinMode.INPUT)
    (hi3 : pinAvailable ei dIn = true)
    (hi4 : cIn < ei.board.TOTAL_PINS) (hi5 : (ei.PIN_MAP cIn).pin_mode = PinMode.OUTPUT)
    (hi6 : pinAvailable ei cIn = true)
    (halRead : Nat → Nat → Int)
    (hloop : ∀ i, i < 8 → halRead i dIn =
      (((dataWrites (shiftOut eo dOut cOut bitOrder b) dOut).getD i 0 : Nat) : Int)) :
    (shiftIn ei halRead dIn cIn bitOrder).1 = b := by
  have hw := shiftOut_dataWrites eo dOut cOut hdc ho1 ho2 ho3 ho4 ho5 ho6 bitOrder b
  have hl : ∀ i, i < 8 → (halRead i dIn).toNat = shiftOutLevel bitOrder b i := by
    intro i hi
    rw [hloop i hi, hw, Int.toNat_ofNat]
    interval_cases i <;> rfl
  rw [shiftIn_value ei halRead dIn cIn hi1 hi2 hi3 bitOrder]
  have heq : (List.range 8).foldl
      (fun v i =>
        if bitOrder == LSBFIRST then (v ||| ((halRead i dIn).toNat <<< i)) % 256
        else (v ||| ((halRead i dIn).toNat <<< (7 - i))) % 256) 0 =
      shiftRoundTripValue bitOrder b := by
    unfold shiftRoundTripValue
    apply List.foldl_ext
    intro acc a ha
    rw [hl a (List.mem_range.mp ha)]
  rw [heq]
  rcases horder with rfl | rfl
  · exact (shiftRoundTripValue_id ⟨b, hb⟩).1
  · exact (shiftRoundTripValue_id ⟨b, hb⟩).2

/-- C6 witness: shifting out the byte 165 on pins 4/5 of an all-output board
and shifting it back in through the loopback oracle on pins 6/7 returns
165. -/
theorem C6_shift_round_trip_witness :
    (shiftIn envShiftIn shiftLoopbackRead 6 7 LSBFIRST).1 = 165 :=
  C6_shift_round_trip envOutputAll envShiftIn 4 5 6 7 LSBFIRST 165 (by decide) (Or.inl rfl)
    (by decide) (by decide) (by decide) (by decide) (by decide) (by decide) (by decide)
    (by decide) (by decide) (by decide) (by decide) (by decide) (by decide)
    shiftLoopbackRead (fun _ _ => rfl)

/-- C7: `map` returns `(x - inLo) * (outHi - outLo) / (inHi - inLo) + outLo`
with truncation toward zero, and for every non-degenerate input range it
maps both endpoints exactly. -/
theorem C7_map_linearity (x inLo inHi outLo outHi : Int) (h : inLo ≠ inHi) :
    map x inLo inHi outLo outHi =
      Int.tdiv ((x - inLo) * (outHi - outLo)) (inHi - inLo) + outLo ∧
    map inLo inLo inHi outLo outHi = outLo ∧
    map inHi inLo inHi outLo outHi = outHi := by
  refine ⟨rfl, ?_, ?_⟩
  · simp [map, Int.zero_tdiv]
  · unfold map
    rw [Int.mul_tdiv_cancel_left _ (sub_ne_zero.mpr (Ne.symm h))]
    omega

/-- C7 witness: the classic instance `map 512 0 1023 0 255` (which equals
127 by truncation) together with exact endpoint mapping on that range. -/
theorem C7_map_linearity_witness :
    map 512 0 1023 0 255 = Int.tdiv ((512 - 0) * (255 - 0)) (1023 - 0) + 0 ∧
    map 0 0 1023 0 255 = 0 ∧
    map 1023 0 1023 0 255 = 255 :=
  C7_map_linearity 512 0 1023 0 255 (by decide)

/-- C8 (amended): `delay 0` kicks the watchdog exactly once and returns at
the first elapsed check, before the network-service block is ever reached —
so it never calls the service routine, even when a service call is due.
(The frozen claim's second half is refuted by
`C8_delay_zero_service_counterexample`.) -/
theorem C8_delay_zero_kicks_once_no_service (env : DelayEnv) (totalMs0 innerFuel fuel : Nat) :
    delay env 0 totalMs0 innerFuel (fuel + 1) = some ⟨1, 0, 1⟩ := by
  have hchk : delayExitCheck (millis env.msTick 0) (millis env.msTick 1) 0 = true :=
    (delayExitCheck_iff _ _ 0).mpr (Nat.zero_le _)
  simp [delay, delayLoop, hchk]

/-- C8 counterexample: with the network subsystem compiled in, set up and
awake, and the pending accumulator already at `SPARK_LOOP_DELAY_MILLIS`
(a service call is due), `delay 0` still performs zero `SPARK_WLAN_Loop`
calls (and one watchdog kick) — refuting the frozen claim's "also calls the
network service routine when a service call is due". -/
theorem C8_delay_zero_service_counterexample :
    delayEnvWlanOn.wlanSetup = true ∧ delayEnvWlanOn.wlanSleep = false ∧
    delayEnvWlanOn.loopDelayMillis ≤ 1000 + 0 ∧
    delay delayEnvWlanOn 0 1000 5 5 = some ⟨1, 0, 1⟩ := by
  refine ⟨rfl, rfl, by decide, by decide⟩

/-- C9: every operation that reads the board table consults only entries at
indices below `TOTAL_PINS`: two environments whose tables agree on the valid
pins produce identical results and traces for `digitalWrite`, `digitalRead`,
`analogRead` and `analogWrite` on every pin, in-range or not (totality of
the embedding is by construction). -/
theorem C9_no_out_of_bounds_table_access (b : Board) (sp wi se : Bool)
    (pm1 pm2 : Nat → PinEntry) (hagree : ∀ p, p < b.TOTAL_PINS → pm1 p = pm2 p)
    (pin v w : Nat) (f g : Nat → Int) :
    digitalWrite ⟨b, sp, wi, se, pm1⟩ pin v = digitalWrite ⟨b, sp, wi, se, pm2⟩ pin v ∧
    digitalRead ⟨b, sp, wi, se, pm1⟩ f pin = digitalRead ⟨b, sp, wi, se, pm2⟩ f pin ∧
    analogRead ⟨b, sp, wi, se, pm1⟩ g pin = analogRead ⟨b, sp, wi, se, pm2⟩ g pin ∧
    analogWrite ⟨b, sp, wi, se, pm1⟩ pin w = analogWrite ⟨b, sp, wi, se, pm2⟩ pin w := by
  have hremap : analogRemap ⟨b, sp, wi, se, pm1⟩ pin = analogRemap ⟨b, sp, wi, se, pm2⟩ pin := rfl
  have hav : ∀ q, pinAvailable ⟨b, sp, wi, se, pm1⟩ q = pinAvailable ⟨b, sp, wi, se, pm2⟩ q :=
    fun _ => rfl
  refine ⟨?_, ?_, ?_, ?_⟩
  · by_cases hp : pin < b.TOTAL_PINS
    · simp [digitalWrite, hagree pin hp, hav]
    · simp [digitalWrite, Nat.not_lt.mp hp]
  · by_cases hp : pin < b.TOTAL_PINS
    · simp [digitalRead, hagree pin hp, hav]
    · simp [digitalRead, Nat.not_lt.mp hp]
  · by_cases hp : analogRemap ⟨b, sp, wi, se, pm2⟩ pin < b.TOTAL_PINS
    · simp [analogRead, hremap, hagree _ hp, hav]
    · simp [analogRead, hremap, Nat.not_lt.mp hp, hav]
  · by_cases hp : pin < b.TOTAL_PINS
    · simp [analogWrite, hagree pin hp, hav]
    · simp [analogWrite, Nat.not_lt.mp hp]

/-- C9 witness: two Core-style environments whose tables differ only beyond
pin 20 behave identically on the out-of-range pin 30. -/
theorem C9_no_out_of_bounds_table_access_witness :
    digitalWrite ⟨coreBoard, false, false, false, pmUniform⟩ 30 1 =
      digitalWrite ⟨coreBoard, false, false, false, pmOutOfRangeDiff⟩ 30 1 ∧
    digitalRead ⟨coreBoard, false, false, false, pmUniform⟩ (fun _ => 7) 30 =
      digitalRead ⟨coreBoard, false, false, false, pmOutOfRangeDiff⟩ (fun _ => 7) 30 ∧
    analogRead ⟨coreBoard, false, false, false, pmUniform⟩ (fun _ => 7) 30 =
      analogRead ⟨coreBoard, false, false, false, pmOutOfRangeDiff⟩ (fun _ => 7) 30 ∧
    analogWrite ⟨coreBoard, false, false, false, pmUniform⟩ 30 1 =
      analogWrite ⟨coreBoard, false, false, false, pmOutOfRangeDiff⟩ 30 1 :=
  C9_no_out_of_bounds_table_access coreBoard false false false pmUniform pmOutOfRangeDiff
    (fun p hp => by
      have hp' : p < 21 := hp
      simp [pmUniform, pmOutOfRangeDiff, hp'])
    30 1 1 (fun _ => 7) (fun _ => 7)

/-- C10: `pinAvailable` performs no range validation: every pin that is not
one of the seven reserved bus pins — including every pin at or beyond
`TOTAL_PINS` — is reported available, and a pin is reported unavailable only
when it is a reserved pin whose bus is currently enabled. -/
theorem C10_pinAvailable_no_range_check (e : Env) (pin : Nat) :
    ((pin ≠ e.board.SCK ∧ pin ≠ e.board.MOSI ∧ pin ≠ e.board.MISO ∧ pin ≠ e.board.SCL ∧
      pin ≠ e.board.SDA ∧ pin ≠ e.board.RX ∧ pin ≠ e.board.TX) →
      pinAvailable e pin = true) ∧
    (pinAvailable e pin = false →
      (e.spiEnabled = true ∧ (pin = e.board.SCK ∨ pin = e.board.MOSI ∨ pin = e.board.MISO)) ∨
      (e.wireEnabled = true ∧ (pin = e.board.SCL ∨ pin = e.board.SDA)) ∨
      (e.serial1Enabled = true ∧ (pin = e.board.RX ∨ pin = e.board.TX))) := by
  constructor
  · intro h
    obtain ⟨h1, h2, h3, h4, h5, h6, h7⟩ := h
    simp [pinAvailable, h1, h2, h3, h4, h5, h6, h7]
  · intro h
    unfold pinAvailable at h
    split at h
    · rename_i hc
      simp only [Bool.and_eq_true, Bool.or_eq_true, beq_iff_eq] at hc
      tauto
    split at h
    · rename_i hc
      simp only [Bool.and_eq_true, Bool.or_eq_true, beq_iff_eq] at hc
      tauto
    split at h
    · rename_i hc
      simp only [Bool.and_eq_true, Bool.or_eq_true, beq_iff_eq] at hc
      tauto
    · exact absurd h (by simp)

/-- C10 witness: on the Core-style board with I2C enabled, the unreserved
pin 9 is available (and so is the out-of-range pin 30), while the reserved
pin 0 (SDA) is unavailable only because its bus is enabled. -/
theorem C10_pinAvailable_no_range_check_witness :
    pinAvailable envWireOn 9 = true ∧ pinAvailable envWireOn 30 = true ∧
    ((envWireOn.spiEnabled = true ∧
        (0 = envWireOn.board.SCK ∨ 0 = envWireOn.board.MOSI ∨ 0 = envWireOn.board.MISO)) ∨
     (envWireOn.wireEnabled = true ∧ (0 = envWireOn.board.SCL ∨ 0 = envWireOn.board.SDA)) ∨
     (envWireOn.serial1Enabled = true ∧ (0 = envWireOn.board.RX ∨ 0 = envWireOn.board.TX))) :=
  ⟨(C10_pinAvailable_no_range_check envWireOn 9).1 (by decide),
   (C10_pinAvailable_no_range_check envWireOn 30).1 (by decide),
   (C10_pinAvailable_no_range_check envWireOn 0).2 (by decide)⟩

end SparkWiring
